import Mathlib

set_option maxRecDepth 8000

/-!
Verification development for the Persian-news retrieval application
(`src/app.py`).  The definitions below are a shallow embedding of the
program: pure Python functions become Lean functions, the behaviour of the
`RecursiveCharacterTextSplitter` collaborator (fixed configuration
`chunk_size=1200`, `chunk_overlap=500`, default separators, keep-separator,
strip-whitespace) is embedded as executable Lean code, and the stateful
BM25-encoder bootstrap logic becomes an explicit state machine.
-/

namespace PersianNewsAI

/-! ### Fixed constants (src/app.py lines 34-38) -/

def INDEX_NAME : String := "persian-new"

def CHUNK_SIZE : Nat := 1200

def CHUNK_OVERLAP : Nat := 500

/-! ### Text utilities

Model of Python `str.strip()` (whitespace stripping at both ends) restricted
to the ASCII whitespace characters that can occur in this pipeline. -/

def isPySpace (c : Char) : Bool :=
  c = ' ' || c = '\t' || c = '\n' || c = '\r' || c = '\x0b' || c = '\x0c'

def stripList (cs : List Char) : List Char :=
  ((cs.dropWhile isPySpace).reverse.dropWhile isPySpace).reverse

def sumLens (l : List (List Char)) : Nat :=
  (l.map List.length).sum

/-! ### RecursiveCharacterTextSplitter (langchain), embedded

`split_documents` (src/app.py lines 75-89) delegates splitting to
`RecursiveCharacterTextSplitter(chunk_size=CHUNK_SIZE, chunk_overlap=CHUNK_OVERLAP)`
with the library defaults: separators `["\n\n", "\n", " ", ""]`,
`keep_separator=True` (the separator is re-attached to the front of the piece
that follows it), `strip_whitespace=True` and `length_function=len`.

`findSub sep text` locates the first occurrence of the literal separator,
returning the text before it and the text after it, exactly as `re.split`
does for an escaped (literal) pattern. -/

def findSub (sep : List Char) : List Char → Option (List Char × List Char)
  | [] => none
  | c :: rest =>
    if sep.isPrefixOf (c :: rest) then some ([], (c :: rest).drop sep.length)
    else (findSub sep rest).map (fun pr => (c :: pr.1, pr.2))

/-- Split on a literal separator, re-attaching the separator to the front of
the following piece (`keep_separator=True` in `_split_text_with_regex`): the
first piece is bare, every later piece starts with the separator.  The fuel
argument is an upper bound on the number of separator occurrences; with a
non-empty separator, `text.length` occurrences is always enough, so
`splitKeepSep` below computes the exact untruncated result. -/
def splitKeepSepFuel (sep : List Char) : Nat → List Char → List (List Char)
  | 0, text => [text]
  | fuel + 1, text =>
    match findSub sep text with
    | none => [text]
    | some (pre, rest) =>
      pre :: List.modifyHead (fun p => sep ++ p) (splitKeepSepFuel sep fuel rest)

def splitKeepSep (sep : List Char) (text : List Char) : List (List Char) :=
  splitKeepSepFuel sep text.length text

def containsSub (sep : List Char) (text : List Char) : Bool :=
  (findSub sep text).isSome

/-- The inner `while` loop of `_merge_splits`: pop leading splits from the
current window until the retained total is at most the overlap and adding the
next split would not exceed the chunk size.  With `keep_separator=True` the
join separator is `""`, so the separator-length terms of the Python code are
all zero. -/
def popLoop (dlen : Nat) : List (List Char) → Nat → List (List Char) × Nat
  | [], total => ([], total)
  | c :: rest, total =>
    if CHUNK_OVERLAP < total || (CHUNK_SIZE < total + dlen && 0 < total) then
      popLoop dlen rest (total - c.length)
    else (c :: rest, total)

/-- `_join_docs`: join with the (empty) separator, strip whitespace, and drop
the chunk when the result is empty. -/
def joinDocs (current : List (List Char)) : Option (List Char) :=
  let text := stripList current.flatten
  if text = [] then none else some text

/-- The main loop of `_merge_splits`: accumulate splits into a window; when
the next split would overflow `CHUNK_SIZE`, emit the current window and pop
splits from its front down to the overlap. -/
def mergeLoop : List (List Char) → List (List Char) → List (List Char) → Nat → List (List Char)
  | [], docs, current, _ => docs ++ (joinDocs current).toList
  | d :: rest, docs, current, total =>
    if CHUNK_SIZE < total + d.length then
      if current = [] then mergeLoop rest docs (current ++ [d]) (total + d.length)
      else
        mergeLoop rest (docs ++ (joinDocs current).toList)
          ((popLoop d.length current total).1 ++ [d])
          ((popLoop d.length current total).2 + d.length)
    else mergeLoop rest docs (current ++ [d]) (total + d.length)

def mergeSplits (splits : List (List Char)) : List (List Char) :=
  mergeLoop splits [] [] 0

/-- The good/bad loop of `_split_text`: splits shorter than `CHUNK_SIZE` are
accumulated and merged; an over-long split flushes the accumulated merge and
is handed to `handleBad` (recursion into the next separator level, or kept
as-is at the last level). -/
def processGo (handleBad : List Char → List (List Char)) :
    List (List Char) → List (List Char) → List (List Char)
  | [], good => mergeSplits good
  | d :: rest, good =>
    if d.length < CHUNK_SIZE then processGo handleBad rest (good ++ [d])
    else mergeSplits good ++ handleBad d ++ processGo handleBad rest []

def processSplits (handleBad : List Char → List (List Char))
    (splits : List (List Char)) : List (List Char) :=
  processGo handleBad splits []

/-! The recursive separator selection of `_split_text`, specialised to the
fixed default separator chain `["\n\n", "\n", " ", ""]`: each level is used
only when its separator occurs in the text (otherwise the text falls through
to the next level), the `""` level splits into single characters (all of
length 1, hence never over-long for `CHUNK_SIZE = 1200`), and over-long
splits of an earlier level recurse into the following level, exactly as
`new_separators` does in the library code. -/

def splitTextL3 (text : List Char) : List (List Char) :=
  processSplits (fun s => [s]) (text.map (fun c => [c]))

def splitTextL2 (text : List Char) : List (List Char) :=
  if containsSub [' '] text then
    processSplits splitTextL3 ((splitKeepSep [' '] text).filter (· ≠ []))
  else splitTextL3 text

def splitTextL1 (text : List Char) : List (List Char) :=
  if containsSub ['\n'] text then
    processSplits splitTextL2 ((splitKeepSep ['\n'] text).filter (· ≠ []))
  else splitTextL2 text

def splitTextL0 (text : List Char) : List (List Char) :=
  if containsSub ['\n', '\n'] text then
    processSplits splitTextL1 ((splitKeepSep ['\n', '\n'] text).filter (· ≠ []))
  else splitTextL1 text

/-- `splitter.split_text` for the fixed configuration of src/app.py. -/
def split_text (s : String) : List String :=
  (splitTextL0 s.data).map (fun cs => String.mk cs)

/-! ### Documents and chunks (src/app.py lines 60-89, 354-366) -/

structure Metadata where
  file_name : String
  category : String
  year : String
deriving DecidableEq, Repr

structure PyDoc where
  content : String
  metadata : Metadata
deriving DecidableEq, Repr

structure Chunk where
  id : Nat
  content : String
  metadata : Metadata
deriving DecidableEq, Repr

/-- Inner loop of `split_documents`: one chunk record per splitter piece, the
content being the piece after `preprocess_text`, the metadata copied from the
parent document, ids taken from the running counter. -/
def chunksOfDoc (preprocess : String → String) (meta : Metadata) :
    List String → Nat → List Chunk
  | [], _ => []
  | piece :: rest, count =>
    { id := count, content := preprocess piece, metadata := meta } ::
      chunksOfDoc preprocess meta rest (count + 1)

/-- Outer loop of `split_documents` over the documents; the counter `count`
starts at 1 and keeps increasing across documents. -/
def split_documents_go (preprocess : String → String) :
    List PyDoc → Nat → List Chunk
  | [], _ => []
  | doc :: rest, count =>
    let pieces := split_text doc.content
    chunksOfDoc preprocess doc.metadata pieces count ++
      split_documents_go preprocess rest (count + pieces.length)

/-- `split_documents` (src/app.py lines 75-89).  The hazm-based
`preprocess_text` is an external collaborator and is therefore a parameter;
the chunk counter starts at `count = 1` as in the source. -/
def split_documents (preprocess : String → String) (docs : List PyDoc) : List Chunk :=
  split_documents_go preprocess docs 1

/-- `is_valid_doc` (src/app.py lines 68-73): the content must be a string
(always true in this typed embedding) whose stripped length exceeds 50. -/
def is_valid_doc (doc : PyDoc) : Bool :=
  decide (50 < (stripList doc.content.data).length)

/-- The document-upload pipeline (src/app.py lines 348-383): the uploaded
text and its metadata are wrapped into a document, chunked with
`split_documents`, and the resulting list is passed, unchanged, to
`embed_documents_in_pinecone`. -/
def process_uploaded_document (preprocess : String → String)
    (text : String) (meta : Metadata) : List Chunk :=
  split_documents preprocess [{ content := text, metadata := meta }]

/-! ### Normalizer model

`preprocess_text` (src/app.py lines 54-58) delegates to the hazm library
(`Normalizer.normalize` and `word_tokenize`), which is not part of this
repository. -/

def isPunctTok (c : Char) : Bool :=
  c = ',' || c = '.' || c = '!' || c = '?' || c = ';' || c = ':' ||
  c = '،' || c = '؛' || c = '؟'

/-- Modelled from the spec: the Normalizer component (§4.1, "character
unification … and tokenization-consistent spacing"), whose implementation
(hazm `Normalizer.normalize` / `word_tokenize`) is missing from src/.
Tokens are maximal runs of non-space, non-punctuation characters, or single
punctuation marks; `preprocess_text` rejoins all tokens with single spaces
(`" ".join(tokens)` in the source). -/
def tokenizeGo : List Char → List Char → List (List Char)
  | [], cur => if cur = [] then [] else [cur.reverse]
  | c :: rest, cur =>
    if isPySpace c then
      if cur = [] then tokenizeGo rest [] else cur.reverse :: tokenizeGo rest []
    else if isPunctTok c then
      if cur = [] then [c] :: tokenizeGo rest []
      else cur.reverse :: [c] :: tokenizeGo rest []
    else tokenizeGo rest (c :: cur)

def word_tokenize_spec (s : String) : List String :=
  (tokenizeGo s.data []).map String.mk

def preprocess_text_spec (s : String) : String :=
  String.intercalate " " (word_tokenize_spec s)

/-! ### Retrieval filter and chatbot chain (src/app.py lines 141-190) -/

/-- The metadata filter that `filtered_retriever` hands to
`vs.get_relevant_documents`: a field is present exactly when the
corresponding selection is neither `[]` nor the single-element `['ALL']`. -/
structure FilterDict where
  category : Option (List String)
  year : Option (List String)
deriving DecidableEq, Repr

/-- Filter construction in `filtered_retriever` (src/app.py lines 164-176).
The inner Python `if categories:` truthiness test is subsumed by the
`categories != []` comparison. -/
def build_filter_dict (categories sub_categories : List String) : FilterDict :=
  { category :=
      if categories ≠ ["ALL"] ∧ categories ≠ [] then some categories else none,
    year :=
      if sub_categories ≠ ["ALL"] ∧ sub_categories ≠ [] then some sub_categories
      else none }

/-- A retrieved langchain document: page content plus the metadata stored at
indexing time. -/
structure RDoc where
  page_content : String
  metadata : Metadata
deriving DecidableEq, Repr

/-- `filtered_retriever` (src/app.py lines 164-176): the raw query string and
the constructed filter are handed to the hybrid-search collaborator `vs`. -/
def filtered_retriever (vs : String → FilterDict → List RDoc)
    (categories sub_categories : List String) (query : String) : List RDoc :=
  vs query (build_filter_dict categories sub_categories)

/-- Model of Python `str()` applied to a retrieved document when the prompt
template interpolates the context list; the exact rendering is irrelevant to
the claims, the model keeps the page content and the metadata fields. -/
def format_doc (d : RDoc) : String :=
  "Document(metadata=(file_name=" ++ d.metadata.file_name ++
  ", category=" ++ d.metadata.category ++ ", year=" ++ d.metadata.year ++
  "), page_content=" ++ d.page_content ++ ")"

def format_context (docs : List RDoc) : String :=
  "[" ++ String.intercalate ", " (docs.map format_doc) ++ "]"

/-! The fixed prompt template of `create_chatbot_retrieval_qa` (src/app.py
lines 143-159), split at its three placeholders. -/

def prompt_part1 : String :=
  "\n    شما یک دستیار هوشمند و مفید هستید. با استفاده از متن زیر به پرسش مطرح‌شده با دقت، شفافیت، و به صورت کامل پاسخ دهید:\n    1. پاسخ را **به زبان فارسی** ارائه دهید.\n    2. **جزئیات کامل** را پوشش دهید و اطمینان حاصل کنید که تمام جنبه‌های سؤال به دقت بررسی شده‌اند.\n    3. تاریخ‌ها و اطلاعات ارائه‌شده باید **مطابق با متن** باشند. از درج تاریخ‌های نادرست خودداری کنید.\n    4. در صورت نیاز به ارجاع به تاریخ، از **نام فایل برای تاریخ دقیق** استفاده کنید.\n    5. نام فایل را در مرجع پاسخ بدهید\n\n    **متن:**\n    "

def prompt_part2 : String := "\n\n    **سؤال اصلی:**\n    "

def prompt_part3 : String := "\n\n    **یادداشت اضافی:**\n    "

def build_prompt (context main_question additional_note : String) : String :=
  prompt_part1 ++ context ++ prompt_part2 ++ main_question ++
    prompt_part3 ++ additional_note ++ "\n    "

/-- The chain of `create_chatbot_retrieval_qa` (src/app.py lines 178-190):
retrieve with the raw main question and the constructed filter, interpolate
the retrieved context and both input fields into the prompt template, run the
generation collaborator `llm`, and return its text output
(`StrOutputParser`).  The result of the chain is that string and nothing
else. -/
def chain_invoke (vs : String → FilterDict → List RDoc) (llm : String → String)
    (categories sub_categories : List String)
    (main_question additional_note : String) : String :=
  llm (build_prompt
        (format_context (filtered_retriever vs categories sub_categories main_question))
        main_question additional_note)

/-- From the spec (§4.7 step 7, Answer data model): the set of distinct
`fileName` values of the retrieved chunks supplied in context.  This is the
spec-side definition used to compare against the code's chain output. -/
def citedFileNames_spec (docs : List RDoc) : List String :=
  (docs.map (fun d => d.metadata.file_name)).dedup

/-! ### Query submission (src/app.py lines 505-547) -/

inductive CollabCall where
  | retrievalCall
  | generationCall
deriving DecidableEq, Repr

/-- The submit handler of `chatbot_page` (src/app.py lines 505-547): an empty
main question is rejected first, then an empty category selection combined
with an empty sub-category selection; only otherwise is the chain built and
invoked.  The second component records which collaborator calls the request
performed. -/
def chatbot_submit (vs : String → FilterDict → List RDoc) (llm : String → String)
    (main_query additional_note : String)
    (categories sub_categories : List String) :
    Except String String × List CollabCall :=
  if main_query = "" then
    (Except.error "لطفاً سؤال اصلی خود را وارد کنید.", [])
  else if categories = [] ∧ sub_categories = [] then
    (Except.error "لطفاً حداقل یک دسته‌بندی یا زیر دسته‌بندی را انتخاب کنید.", [])
  else
    (Except.ok (chain_invoke vs llm categories sub_categories main_query additional_note),
     [CollabCall.retrievalCall, CollabCall.generationCall])

/-! ### Sub-category planner (src/app.py lines 218-229) -/

/-- The `extend` loop of `get_selected_subfolders`: concatenate the
configured sub-folder lists of the selected folders, skipping folders absent
from the taxonomy. -/
def get_selected_subfolders_go (folder_dict : List (String × List String)) :
    List String → List String
  | [] => []
  | f :: rest =>
    (match folder_dict.lookup f with
     | some subs => subs
     | none => []) ++ get_selected_subfolders_go folder_dict rest

/-- `get_selected_subfolders` (src/app.py lines 218-229).  The persisted
folder structure (`folder_structure.json`) is passed as an association list
with unique keys, standing for the Python dict `data[0]`. -/
def get_selected_subfolders (folder_dict : List (String × List String))
    (selected_folders : List String) : List String :=
  if selected_folders = [] then ["ALL"]
  else "ALL" :: get_selected_subfolders_go folder_dict selected_folders

/-! ### BM25 encoder bootstrap state machine (src/app.py lines 105-113 and
199-206)

The encoder state is identified with the corpus it was fitted on; the
persisted `full_bm25_values.json` file is `bm25_file`; every upsert into the
Pinecone index is tagged with the encoder state its sparse vectors were built
against. -/

inductive BM25Event where
  | fitEv (corpus : List String)
  | loadEv
  | dumpEv
deriving DecidableEq, Repr

structure AppState where
  bm25_file : Option (List String)
  index_states : List (List String)
deriving DecidableEq, Repr

/-- `embed_documents_in_pinecone` (src/app.py lines 105-130): if the
persisted state file exists it is loaded, otherwise the encoder is fitted on
the chunk contents of this upload and dumped immediately; then the chunks are
upserted using that encoder state. -/
def embed_documents_step (docs : List Chunk) (s : AppState) :
    AppState × List BM25Event :=
  match s.bm25_file with
  | some st =>
    ({ s with index_states := s.index_states ++ [st] }, [BM25Event.loadEv])
  | none =>
    let corpus := docs.map (fun d => d.content)
    ({ bm25_file := some corpus, index_states := s.index_states ++ [corpus] },
     [BM25Event.fitEv corpus, BM25Event.dumpEv])

/-- `initialize_chatbot` (src/app.py lines 199-206): try to load the
persisted state; only when that fails (no persisted state exists) fit the
placeholder corpus and dump it immediately.  No upsert happens here. -/
def init_chatbot_step (s : AppState) : AppState × List BM25Event :=
  match s.bm25_file with
  | some _ => (s, [BM25Event.loadEv])
  | none =>
    ({ s with bm25_file := some ["placeholder text"] },
     [BM25Event.fitEv ["placeholder text"], BM25Event.dumpEv])

inductive AppOp where
  | ingest (docs : List Chunk)
  | initQuery
deriving Repr

def app_step (s : AppState) : AppOp → AppState × List BM25Event
  | AppOp.ingest docs => embed_documents_step docs s
  | AppOp.initQuery => init_chatbot_step s

def app_run (s : AppState) : List AppOp → AppState × List BM25Event
  | [] => (s, [])
  | op :: rest =>
    let pr := app_step s op
    let pr2 := app_run pr.1 rest
    (pr2.1, pr.2 ++ pr2.2)

def isFitEv : BM25Event → Bool
  | BM25Event.fitEv _ => true
  | _ => false

def countFits (evs : List BM25Event) : Nat :=
  (evs.filter isFitEv).length

/-! ### Concrete example data used by the claim evaluations -/

def exMeta : Metadata :=
  { file_name := "doc.docx", category := "A", year := "2023" }

/-- A document of 602 characters alternating a letter and a comma: a single
chunk of raw length 602, whose normalization inserts token-boundary
spaces. -/
def c2list : List Char := List.flatten (List.replicate 301 ['a', ','])

def c2text : String := String.mk c2list

def alpha23 : List Char := "abcdefghijklmnopqrstuvw".data

/-- A document of 113 * 23 + 1 = 2600 characters, no whitespace and no
punctuation. -/
def c3list : List Char := List.flatten (List.replicate 113 alpha23) ++ ['a']

def c3text : String := String.mk c3list

/-- The source-text window from position `a` (inclusive) to `b` (exclusive)
of the C3 scenario document. -/
def c3seg (a b : Nat) : String := String.mk ((c3list.drop a).take (b - a))

/-! ### Proof-side characterization of the splitter on separator-free text

`toWindow` and `windows` are not part of the embedding: on text containing
none of the separators, the splitter reduces to the `""` level, whose merge
loop emits the sliding windows described by `windows` — a full window, then
a fresh window every `CHUNK_SIZE - CHUNK_OVERLAP` characters. -/

def toWindow (t : List Char) : List (List Char) :=
  (joinDocs (t.map fun c => [c])).toList

def windows (t : List Char) : List (List Char) :=
  if _h : t.length ≤ CHUNK_SIZE then toWindow t
  else toWindow (t.take CHUNK_SIZE) ++ windows (t.drop (CHUNK_SIZE - CHUNK_OVERLAP))
termination_by t.length
decreasing_by
  simp only [List.length_drop]
  simp only [CHUNK_SIZE, CHUNK_OVERLAP] at *
  omega

/-- Probe context used to compare two chain runs. -/
def probe_docs1 : List RDoc :=
  [{ page_content := "متن",
     metadata := { file_name := "f1.docx", category := "A", year := "2023" } }]

def probe_docs2 : List RDoc :=
  [{ page_content := "متن",
     metadata := { file_name := "f2.docx", category := "A", year := "2023" } }]

/-! ## Helper lemmas for the chunk-size bound -/

theorem length_dropWhile_le_self (p : Char → Bool) (l : List Char) :
    (l.dropWhile p).length ≤ l.length := by
  induction l with
  | nil => simp
  | cons c rest ih =>
    by_cases h : p c
    · rw [List.dropWhile_cons_of_pos h]
      exact Nat.le_succ_of_le ih
    · rw [List.dropWhile_cons_of_neg h]

theorem stripList_length_le (cs : List Char) : (stripList cs).length ≤ cs.length := by
  unfold stripList
  calc ((cs.dropWhile isPySpace).reverse.dropWhile isPySpace).reverse.length
      = ((cs.dropWhile isPySpace).reverse.dropWhile isPySpace).length := by
        rw [List.length_reverse]
    _ ≤ (cs.dropWhile isPySpace).reverse.length := length_dropWhile_le_self _ _
    _ = (cs.dropWhile isPySpace).length := by rw [List.length_reverse]
    _ ≤ cs.length := length_dropWhile_le_self _ _

theorem sumLens_nil : sumLens [] = 0 := rfl

theorem sumLens_cons (c : List Char) (l : List (List Char)) :
    sumLens (c :: l) = c.length + sumLens l := by
  simp [sumLens]

theorem sumLens_append (l1 l2 : List (List Char)) :
    sumLens (l1 ++ l2) = sumLens l1 + sumLens l2 := by
  simp [sumLens]

theorem joinDocs_mem_length {current : List (List Char)} {t : List Char}
    (h : t ∈ (joinDocs current).toList) : t.length ≤ sumLens current := by
  by_cases h0 : stripList current.flatten = []
  · simp [joinDocs, h0] at h
  · simp [joinDocs, h0] at h
    subst h
    calc (stripList current.flatten).length
        ≤ current.flatten.length := stripList_length_le _
      _ = sumLens current := by simp [sumLens, List.length_flatten]

theorem popLoop_spec (dlen : Nat) (current : List (List Char)) :
    ∀ (total : Nat), total = sumLens current →
      (popLoop dlen current total).2 = sumLens (popLoop dlen current total).1 ∧
      (popLoop dlen current total).2 ≤ CHUNK_OVERLAP ∧
      ((popLoop dlen current total).2 + dlen ≤ CHUNK_SIZE ∨
        (popLoop dlen current total).2 = 0) := by
  induction current with
  | nil =>
    intro total htot
    rw [sumLens_nil] at htot
    subst htot
    refine ⟨rfl, by simp [popLoop, CHUNK_OVERLAP], Or.inr rfl⟩
  | cons c rest ih =>
    intro total htot
    rw [sumLens_cons] at htot
    by_cases hc : (CHUNK_OVERLAP < total || (CHUNK_SIZE < total + dlen && 0 < total)) = true
    · rw [popLoop, if_pos hc]
      exact ih (total - c.length) (by omega)
    · rw [popLoop, if_neg hc]
      simp only [Bool.or_eq_true, Bool.and_eq_true, decide_eq_true_eq, not_or, not_and,
        Decidable.not_not] at hc
      refine ⟨htot, by omega, ?_⟩
      rcases Nat.eq_zero_or_pos total with h0 | hpos
      · exact Or.inr h0
      · exact Or.inl (by omega)

theorem sumLens_single (d : List Char) : sumLens [d] = d.length := by
  simp [sumLens]

theorem mergeLoop_bound (splits : List (List Char)) :
    ∀ (docs current : List (List Char)) (total : Nat),
      (∀ d ∈ splits, d.length < CHUNK_SIZE) →
      total = sumLens current → total ≤ CHUNK_SIZE →
      (∀ c ∈ docs, c.length ≤ CHUNK_SIZE) →
      ∀ c ∈ mergeLoop splits docs current total, c.length ≤ CHUNK_SIZE := by
  induction splits with
  | nil =>
    intro docs current total _ htot hle hdocs c hc
    simp only [mergeLoop] at hc
    rcases List.mem_append.1 hc with hc | hc
    · exact hdocs c hc
    · calc c.length ≤ sumLens current := joinDocs_mem_length hc
        _ = total := htot.symm
        _ ≤ CHUNK_SIZE := hle
  | cons d rest ih =>
    intro docs current total hsplits htot hle hdocs c hc
    have hd : d.length < CHUNK_SIZE := hsplits d (List.mem_cons_self d rest)
    have hrest : ∀ x ∈ rest, x.length < CHUNK_SIZE :=
      fun x hx => hsplits x (List.mem_cons_of_mem d hx)
    by_cases hover : CHUNK_SIZE < total + d.length
    · by_cases hcur : current = []
      · simp only [mergeLoop, if_pos hover, if_pos hcur] at hc
        subst hcur
        rw [sumLens_nil] at htot
        subst htot
        refine ih docs ([] ++ [d]) (0 + d.length) hrest ?_ (by omega) hdocs c hc
        rw [sumLens_append, sumLens_single, sumLens_nil]
      · simp only [mergeLoop, if_pos hover, if_neg hcur] at hc
        obtain ⟨hps, hov, hfit⟩ := popLoop_spec d.length current total htot
        refine ih _ _ _ hrest ?_ ?_ ?_ c hc
        · rw [sumLens_append, sumLens_single, ← hps]
        · rcases hfit with hf | hf
          · omega
          · omega
        · intro x hx
          rcases List.mem_append.1 hx with hx | hx
          · exact hdocs x hx
          · calc x.length ≤ sumLens current := joinDocs_mem_length hx
              _ = total := htot.symm
              _ ≤ CHUNK_SIZE := hle
    · simp only [mergeLoop, if_neg hover] at hc
      refine ih _ _ _ hrest ?_ (by omega) hdocs c hc
      rw [sumLens_append, sumLens_single, htot]

theorem mergeSplits_bound (splits : List (List Char))
    (h : ∀ d ∈ splits, d.length < CHUNK_SIZE) :
    ∀ c ∈ mergeSplits splits, c.length ≤ CHUNK_SIZE :=
  mergeLoop_bound splits [] [] 0 h rfl (Nat.zero_le _) (by simp)

theorem processGo_bound (handleBad : List Char → List (List Char)) :
    ∀ (splits good : List (List Char)),
      (∀ s ∈ splits, CHUNK_SIZE ≤ s.length → ∀ c ∈ handleBad s, c.length ≤ CHUNK_SIZE) →
      (∀ g ∈ good, g.length < CHUNK_SIZE) →
      ∀ c ∈ processGo handleBad splits good, c.length ≤ CHUNK_SIZE := by
  intro splits
  induction splits with
  | nil =>
    intro good _ hgood c hc
    simp only [processGo] at hc
    exact mergeSplits_bound good hgood c hc
  | cons d rest ih =>
    intro good hbad hgood c hc
    by_cases hd : d.length < CHUNK_SIZE
    · simp only [processGo, if_pos hd] at hc
      refine ih (good ++ [d]) (fun s hs => hbad s (List.mem_cons_of_mem d hs)) ?_ c hc
      intro g hg
      rcases List.mem_append.1 hg with hg | hg
      · exact hgood g hg
      · rw [List.mem_singleton.1 hg]; exact hd
    · simp only [processGo, if_neg hd] at hc
      rcases List.mem_append.1 hc with hc | hc
      · rcases List.mem_append.1 hc with hc | hc
        · exact mergeSplits_bound good hgood c hc
        · exact hbad d (List.mem_cons_self d rest) (Nat.le_of_not_lt hd) c hc
      · exact ih [] (fun s hs => hbad s (List.mem_cons_of_mem d hs)) (by simp) c hc

theorem splitTextL3_bound (text : List Char) :
    ∀ c ∈ splitTextL3 text, c.length ≤ CHUNK_SIZE := by
  intro c hc
  simp only [splitTextL3, processSplits] at hc
  refine processGo_bound _ _ [] ?_ (by simp) c hc
  intro s hs hlen
  rcases List.mem_map.1 hs with ⟨a, _, rfl⟩
  exfalso
  simp [CHUNK_SIZE] at hlen

theorem splitTextL2_bound (text : List Char) :
    ∀ c ∈ splitTextL2 text, c.length ≤ CHUNK_SIZE := by
  intro c hc
  unfold splitTextL2 at hc
  by_cases h : containsSub [' '] text = true
  · rw [if_pos h] at hc
    simp only [processSplits] at hc
    refine processGo_bound _ _ [] ?_ (by simp) c hc
    intro s _ _
    exact splitTextL3_bound s
  · rw [if_neg h] at hc
    exact splitTextL3_bound text c hc

theorem splitTextL1_bound (text : List Char) :
    ∀ c ∈ splitTextL1 text, c.length ≤ CHUNK_SIZE := by
  intro c hc
  unfold splitTextL1 at hc
  by_cases h : containsSub ['\n'] text = true
  · rw [if_pos h] at hc
    simp only [processSplits] at hc
    refine processGo_bound _ _ [] ?_ (by simp) c hc
    intro s _ _
    exact splitTextL2_bound s
  · rw [if_neg h] at hc
    exact splitTextL2_bound text c hc

theorem splitTextL0_bound (text : List Char) :
    ∀ c ∈ splitTextL0 text, c.length ≤ CHUNK_SIZE := by
  intro c hc
  unfold splitTextL0 at hc
  by_cases h : containsSub ['\n', '\n'] text = true
  · rw [if_pos h] at hc
    simp only [processSplits] at hc
    refine processGo_bound _ _ [] ?_ (by simp) c hc
    intro s _ _
    exact splitTextL1_bound s
  · rw [if_neg h] at hc
    exact splitTextL1_bound text c hc

/-- Every window produced by the embedded splitter has at most `CHUNK_SIZE`
characters. -/
theorem split_text_chunk_le (s : String) :
    ∀ t ∈ split_text s, t.length ≤ CHUNK_SIZE := by
  intro t ht
  rcases List.mem_map.1 ht with ⟨cs, hcs, rfl⟩
  exact splitTextL0_bound s.data cs hcs

/-! ## Membership lemmas for `split_documents` -/

theorem mem_chunksOfDoc {p : String → String} {meta : Metadata} :
    ∀ {pieces : List String} {count : Nat} {ch : Chunk},
      ch ∈ chunksOfDoc p meta pieces count →
      ∃ piece ∈ pieces, ch.content = p piece := by
  intro pieces
  induction pieces with
  | nil => intro count ch h; simp [chunksOfDoc] at h
  | cons piece rest ih =>
    intro count ch h
    simp only [chunksOfDoc, List.mem_cons] at h
    rcases h with rfl | h
    · exact ⟨piece, List.mem_cons_self piece rest, rfl⟩
    · rcases ih h with ⟨q, hq, he⟩
      exact ⟨q, List.mem_cons_of_mem piece hq, he⟩

theorem mem_split_documents_go {p : String → String} :
    ∀ {docs : List PyDoc} {count : Nat} {ch : Chunk},
      ch ∈ split_documents_go p docs count →
      ∃ doc ∈ docs, ∃ piece ∈ split_text doc.content, ch.content = p piece := by
  intro docs
  induction docs with
  | nil => intro count ch h; simp [split_documents_go] at h
  | cons doc rest ih =>
    intro count ch h
    simp only [split_documents_go] at h
    rcases List.mem_append.1 h with h | h
    · rcases mem_chunksOfDoc h with ⟨piece, hp, he⟩
      exact ⟨doc, List.mem_cons_self doc rest, piece, hp, he⟩
    · rcases ih h with ⟨d, hd, piece, hp, he⟩
      exact ⟨d, List.mem_cons_of_mem doc hd, piece, hp, he⟩

/-! ## Splitter characterization on separator-free text -/

theorem flatten_map_singleton (t : List Char) : (t.map fun c => [c]).flatten = t := by
  induction t with
  | nil => rfl
  | cons c rest ih => simp [ih]

theorem dropWhile_all_neg (p : Char → Bool) (l : List Char)
    (h : ∀ c ∈ l, p c = false) : l.dropWhile p = l := by
  cases l with
  | nil => rfl
  | cons c rest =>
    exact List.dropWhile_cons_of_neg (by simp [h c (List.mem_cons_self c rest)])

theorem stripList_all_no_space (t : List Char)
    (h : ∀ c ∈ t, isPySpace c = false) : stripList t = t := by
  unfold stripList
  rw [dropWhile_all_neg _ _ h]
  rw [dropWhile_all_neg _ _ (fun c hc => h c (List.mem_reverse.1 hc))]
  exact List.reverse_reverse t

theorem toWindow_plain (t : List Char) (hne : t ≠ [])
    (h : ∀ c ∈ t, isPySpace c = false) : toWindow t = [t] := by
  simp only [toWindow, joinDocs, flatten_map_singleton, stripList_all_no_space t h]
  simp [hne]

theorem findSub_none (s0 : Char) (srest : List Char) :
    ∀ text : List Char, (∀ c ∈ text, c ≠ s0) → findSub (s0 :: srest) text = none := by
  intro text
  induction text with
  | nil => intro _; rfl
  | cons c rest ih =>
    intro h
    have hc : c ≠ s0 := h c (List.mem_cons_self c rest)
    have hbeq : (s0 == c) = false := beq_eq_false_iff_ne.2 (fun he => hc he.symm)
    have hpre : ((s0 :: srest).isPrefixOf (c :: rest)) = false := by
      simp [List.isPrefixOf, hbeq]
    rw [findSub, if_neg (by simp [hpre])]
    rw [ih (fun x hx => h x (List.mem_cons_of_mem c hx))]
    rfl

theorem containsSub_no_occ (s0 : Char) (srest text : List Char)
    (h : ∀ c ∈ text, c ≠ s0) : containsSub (s0 :: srest) text = false := by
  unfold containsSub
  rw [findSub_none s0 srest text h]
  rfl

theorem popLoop_singleton : ∀ (w : List Char), w.length ≤ CHUNK_SIZE →
    popLoop 1 (w.map fun c => [c]) w.length =
      ((w.drop (w.length - CHUNK_OVERLAP)).map fun c => [c], min w.length CHUNK_OVERLAP) := by
  intro w
  induction w with
  | nil => intro _; simp [popLoop]
  | cons c rest ih =>
    intro hle
    simp only [List.map_cons, List.length_cons]
    have hrle : rest.length ≤ CHUNK_SIZE := by
      simp only [List.length_cons] at hle
      omega
    by_cases h5 : CHUNK_OVERLAP < rest.length + 1
    · rw [popLoop, if_pos (by
        simp only [Bool.or_eq_true, decide_eq_true_eq]
        exact Or.inl h5)]
      have hlen1 : rest.length + 1 - ([c] : List Char).length = rest.length := by simp
      rw [hlen1, ih hrle]
      rw [show rest.length + 1 - CHUNK_OVERLAP = (rest.length - CHUNK_OVERLAP) + 1 by omega,
        List.drop_succ_cons]
      congr 1
      omega
    · rw [popLoop, if_neg (by
        have hcso : CHUNK_OVERLAP < CHUNK_SIZE := by decide
        simp only [Bool.or_eq_true, Bool.and_eq_true, decide_eq_true_eq, not_or, not_and]
        omega)]
      rw [show rest.length + 1 - CHUNK_OVERLAP = 0 by omega, List.drop_zero]
      simp only [List.map_cons]
      congr 1
      omega

theorem mergeLoop_singleton (rest : List Char) :
    ∀ (w : List Char) (docs : List (List Char)), w ≠ [] → w.length ≤ CHUNK_SIZE →
      mergeLoop (rest.map fun c => [c]) docs (w.map fun c => [c]) w.length =
        docs ++ windows (w ++ rest) := by
  induction rest with
  | nil =>
    intro w docs hne hle
    simp only [List.map_nil, mergeLoop, List.append_nil]
    rw [windows.eq_def, dif_pos hle]
    rfl
  | cons d rest2 ih =>
    intro w docs hne hle
    simp only [List.map_cons]
    have hone : ([d] : List Char).length = 1 := rfl
    by_cases hfull : CHUNK_SIZE < w.length + ([d] : List Char).length
    · have hw : w.length = CHUNK_SIZE := by
        rw [hone] at hfull
        omega
      rw [mergeLoop, if_pos hfull,
        if_neg (by simp [List.map_eq_nil_iff, hne])]
      rw [hone, popLoop_singleton w hle]
      have hcso : CHUNK_OVERLAP < CHUNK_SIZE := by decide
      have hmin : min w.length CHUNK_OVERLAP = CHUNK_OVERLAP := by omega
      rw [hmin, hw]
      have hmap : ((w.drop (CHUNK_SIZE - CHUNK_OVERLAP)).map fun c => [c]) ++ [[d]] =
          ((w.drop (CHUNK_SIZE - CHUNK_OVERLAP) ++ [d]).map fun c => [c]) := by
        simp
      rw [hmap]
      have hw2len : (w.drop (CHUNK_SIZE - CHUNK_OVERLAP) ++ [d]).length = CHUNK_OVERLAP + 1 := by
        simp only [List.length_append, List.length_drop, hw]
        omega
      rw [show CHUNK_OVERLAP + 1 = (w.drop (CHUNK_SIZE - CHUNK_OVERLAP) ++ [d]).length from
        hw2len.symm]
      rw [ih (w.drop (CHUNK_SIZE - CHUNK_OVERLAP) ++ [d]) _ (by simp) (by rw [hw2len]; omega)]
      have hlen2 : CHUNK_SIZE < (w ++ d :: rest2).length := by
        simp only [List.length_append, List.length_cons, hw]
        omega
      have htake : (w ++ d :: rest2).take CHUNK_SIZE = w := by
        rw [← hw]
        exact List.take_left w (d :: rest2)
      have hdrop : (w ++ d :: rest2).drop (CHUNK_SIZE - CHUNK_OVERLAP) =
          w.drop (CHUNK_SIZE - CHUNK_OVERLAP) ++ d :: rest2 := by
        rw [List.drop_append_eq_append_drop]
        rw [show CHUNK_SIZE - CHUNK_OVERLAP - w.length = 0 by omega, List.drop_zero]
      have hwin : windows (w ++ d :: rest2) =
          toWindow w ++ windows (w.drop (CHUNK_SIZE - CHUNK_OVERLAP) ++ d :: rest2) := by
        rw [windows.eq_def, dif_neg (by omega)]
        rw [htake, hdrop]
      rw [hwin]
      rw [show (w.drop (CHUNK_SIZE - CHUNK_OVERLAP) ++ [d]) ++ rest2 =
        w.drop (CHUNK_SIZE - CHUNK_OVERLAP) ++ d :: rest2 by simp]
      rw [List.append_assoc]
      rfl
    · rw [mergeLoop, if_neg hfull]
      have hmap : (w.map fun c => [c]) ++ [[d]] = ((w ++ [d]).map fun c => [c]) := by simp
      have hlen : w.length + ([d] : List Char).length = (w ++ [d]).length := by simp
      rw [hmap, hlen, ih (w ++ [d]) docs (by simp) (by
        rw [hone] at hfull
        simp only [List.length_append, hone]
        omega)]
      rw [show (w ++ [d]) ++ rest2 = w ++ d :: rest2 by simp]

theorem mergeSplits_singleton (text : List Char) :
    mergeSplits (text.map fun c => [c]) = windows text := by
  cases text with
  | nil =>
    simp only [List.map_nil, mergeSplits, mergeLoop, joinDocs]
    rw [windows.eq_def, dif_pos (by simp [CHUNK_SIZE])]
    simp [toWindow, joinDocs, stripList]
  | cons c rest =>
    show mergeLoop ((c :: rest).map fun c => [c]) [] [] 0 = windows (c :: rest)
    simp only [List.map_cons]
    rw [mergeLoop, if_neg (by
      simp only [not_lt]
      have : ([c] : List Char).length = 1 := rfl
      rw [this]
      have : 1 ≤ CHUNK_SIZE := by decide
      omega)]
    have h1 : ([] : List (List Char)) ++ [[c]] = ([c].map fun c => [c]) := by simp
    have h2 : 0 + ([c] : List Char).length = ([c] : List Char).length := by simp
    rw [h1, h2]
    rw [show ([c] : List Char).length = ([c] : List Char).length from rfl]
    rw [mergeLoop_singleton rest [c] [] (by simp) (by
      have : ([c] : List Char).length = 1 := rfl
      rw [this]
      decide)]
    simp

theorem processGo_all_good (hb : List Char → List (List Char)) :
    ∀ (splits good : List (List Char)), (∀ d ∈ splits, d.length < CHUNK_SIZE) →
      processGo hb splits good = mergeSplits (good ++ splits) := by
  intro splits
  induction splits with
  | nil => intro good _; simp [processGo, mergeSplits]
  | cons d rest ih =>
    intro good h
    rw [processGo, if_pos (h d (List.mem_cons_self d rest))]
    rw [ih (good ++ [d]) (fun x hx => h x (List.mem_cons_of_mem d hx))]
    rw [show (good ++ [d]) ++ rest = good ++ d :: rest by simp]

theorem splitTextL3_eq_windows (text : List Char) :
    splitTextL3 text = windows text := by
  unfold splitTextL3 processSplits
  rw [processGo_all_good]
  · rw [List.nil_append]
    exact mergeSplits_singleton text
  · intro d hd
    rcases List.mem_map.1 hd with ⟨a, _, rfl⟩
    simp [CHUNK_SIZE]

theorem splitTextL0_no_sep (text : List Char)
    (h : ∀ c ∈ text, c ≠ '\n' ∧ c ≠ ' ') : splitTextL0 text = windows text := by
  have h1 : containsSub ['\n', '\n'] text = false :=
    containsSub_no_occ _ _ _ (fun c hc => (h c hc).1)
  have h2 : containsSub ['\n'] text = false :=
    containsSub_no_occ _ _ _ (fun c hc => (h c hc).1)
  have h3 : containsSub [' '] text = false :=
    containsSub_no_occ _ _ _ (fun c hc => (h c hc).2)
  unfold splitTextL0 splitTextL1 splitTextL2
  rw [if_neg (by simp [h1]), if_neg (by simp [h2]), if_neg (by simp [h3])]
  exact splitTextL3_eq_windows text

/-! ## Claim C7 -/

/-- C7: for every pair of category and sub-category selections, the
constructed retrieval filter places no constraint on a field whose selection
is empty or equals the single-element `['ALL']` sentinel, and for a
non-empty, non-ALL selection it restricts that field (categories against
`category`, sub-categories against `year`) to exactly the selected set. -/
theorem C7_filter_semantics (cats subs : List String) :
    ((cats = [] ∨ cats = ["ALL"]) → (build_filter_dict cats subs).category = none) ∧
    ((subs = [] ∨ subs = ["ALL"]) → (build_filter_dict cats subs).year = none) ∧
    (cats ≠ [] → cats ≠ ["ALL"] → (build_filter_dict cats subs).category = some cats) ∧
    (subs ≠ [] → subs ≠ ["ALL"] → (build_filter_dict cats subs).year = some subs) := by
  refine ⟨?_, ?_, ?_, ?_⟩
  · rintro (rfl | rfl) <;> simp [build_filter_dict]
  · rintro (rfl | rfl) <;> simp [build_filter_dict]
  · intro h1 h2
    simp only [build_filter_dict]
    exact if_pos ⟨h2, h1⟩
  · intro h1 h2
    simp only [build_filter_dict]
    exact if_pos ⟨h2, h1⟩

theorem C7_filter_semantics_witness :
    (build_filter_dict ["فرهنگ"] []).category = some ["فرهنگ"] ∧
    (build_filter_dict ["فرهنگ"] []).year = none :=
  ⟨(C7_filter_semantics ["فرهنگ"] []).2.2.1 (by decide) (by decide),
   (C7_filter_semantics ["فرهنگ"] []).2.1 (Or.inl rfl)⟩

/-! ## Claim C10 -/

/-- C10: a selection containing the string "ALL" together with at least one
other value is not treated as unconstrained: the filter restricts the field
to the literal selected set, "ALL" included, because only the exact
selections `['ALL']` and `[]` disable the constraint. -/
theorem C10_all_plus_other_constrains (cats subs : List String) :
    ("ALL" ∈ cats → cats ≠ ["ALL"] → (build_filter_dict cats subs).category = some cats) ∧
    ("ALL" ∈ subs → subs ≠ ["ALL"] → (build_filter_dict cats subs).year = some subs) := by
  constructor
  · intro hm hne
    have hne2 : cats ≠ [] := by rintro rfl; simp at hm
    simp only [build_filter_dict]
    exact if_pos ⟨hne, hne2⟩
  · intro hm hne
    have hne2 : subs ≠ [] := by rintro rfl; simp at hm
    simp only [build_filter_dict]
    exact if_pos ⟨hne, hne2⟩

theorem C10_all_plus_other_constrains_witness :
    (build_filter_dict ["ALL", "فرهنگ"] ["ALL", "2023"]).category = some ["ALL", "فرهنگ"] ∧
    (build_filter_dict ["ALL", "فرهنگ"] ["ALL", "2023"]).year = some ["ALL", "2023"] :=
  ⟨(C10_all_plus_other_constrains ["ALL", "فرهنگ"] ["ALL", "2023"]).1 (by decide) (by decide),
   (C10_all_plus_other_constrains ["ALL", "فرهنگ"] ["ALL", "2023"]).2 (by decide) (by decide)⟩

/-! ## Claim C6 -/

/-- C6: a query request with an empty main question, or with both the
category and the sub-category selection empty, is rejected with a validation
message and performs no collaborator call; any other request proceeds to the
chain and performs the retrieval and generation calls. -/
theorem C6_validation_gate (vs : String → FilterDict → List RDoc)
    (llm : String → String) (q note : String) (cats subs : List String) :
    ((q = "" ∨ (cats = [] ∧ subs = [])) →
        (chatbot_submit vs llm q note cats subs).2 = [] ∧
          ∃ msg, (chatbot_submit vs llm q note cats subs).1 = Except.error msg) ∧
    (q ≠ "" → ¬(cats = [] ∧ subs = []) →
        (chatbot_submit vs llm q note cats subs).1 =
            Except.ok (chain_invoke vs llm cats subs q note) ∧
          (chatbot_submit vs llm q note cats subs).2 =
            [CollabCall.retrievalCall, CollabCall.generationCall]) := by
  constructor
  · intro h
    by_cases hq : q = ""
    · simp [chatbot_submit, hq]
    · rcases h with h | h
      · exact absurd h hq
      · simp [chatbot_submit, hq, h]
  · intro hq hcs
    simp [chatbot_submit, hq, hcs]

theorem C6_validation_gate_witness :
    ((chatbot_submit (fun _ _ => []) (fun _ => "پاسخ") "" "" ["A"] []).2 = [] ∧
       ∃ msg, (chatbot_submit (fun _ _ => []) (fun _ => "پاسخ") "" "" ["A"] []).1 =
         Except.error msg) ∧
    (chatbot_submit (fun _ _ => []) (fun _ => "پاسخ") "سؤال" "" ["A"] []).1 =
        Except.ok (chain_invoke (fun _ _ => []) (fun _ => "پاسخ") ["A"] [] "سؤال" "") ∧
      (chatbot_submit (fun _ _ => []) (fun _ => "پاسخ") "سؤال" "" ["A"] []).2 =
        [CollabCall.retrievalCall, CollabCall.generationCall] :=
  ⟨(C6_validation_gate (fun _ _ => []) (fun _ => "پاسخ") "" "" ["A"] []).1 (Or.inl rfl),
   (C6_validation_gate (fun _ _ => []) (fun _ => "پاسخ") "سؤال" "" ["A"] []).2
     (by decide) (by simp)⟩

/-! ## Claim C5 -/

theorem mem_get_selected_subfolders_go (fd : List (String × List String)) :
    ∀ (sel : List String) (x : String),
      x ∈ get_selected_subfolders_go fd sel ↔
        ∃ f ∈ sel, ∃ subs, fd.lookup f = some subs ∧ x ∈ subs := by
  intro sel
  induction sel with
  | nil => intro x; simp [get_selected_subfolders_go]
  | cons f rest ih =>
    intro x
    simp only [get_selected_subfolders_go, List.mem_append, ih, List.mem_cons]
    constructor
    · rintro (hx | ⟨g, hg, subs, hs, hxs⟩)
      · cases hl : fd.lookup f with
        | none => rw [hl] at hx; simp at hx
        | some subs => rw [hl] at hx; exact ⟨f, Or.inl rfl, subs, hl, hx⟩
      · exact ⟨g, Or.inr hg, subs, hs, hxs⟩
    · rintro ⟨g, (rfl | hg), subs, hs, hxs⟩
      · left; rw [hs]; exact hxs
      · right; exact ⟨g, hg, subs, hs, hxs⟩

/-- C5 (counterexample): with sub-category lists `{"2023","2024"}` and
`{"2024","2025"}` for the two selected categories, the result keeps the
duplicated "2024" — duplicates are not collapsed and the result is not the
claimed four-element sequence. -/
theorem C5_duplicates_not_collapsed :
    get_selected_subfolders [("A", ["2023", "2024"]), ("B", ["2024", "2025"])] ["A", "B"] =
      ["ALL", "2023", "2024", "2024", "2025"] ∧
    (get_selected_subfolders [("A", ["2023", "2024"]), ("B", ["2024", "2025"])]
        ["A", "B"]).count "2024" = 2 ∧
    get_selected_subfolders [("A", ["2023", "2024"]), ("B", ["2024", "2025"])] ["A", "B"] ≠
      ["ALL", "2023", "2024", "2025"] := by
  refine ⟨by decide, by decide, by decide⟩

/-- C5 (amended): `get_selected_subfolders` returns `["ALL"]` for the empty
selection, and otherwise "ALL" followed by the concatenation of the
configured sub-category lists of the selected categories; as a set the
result is `{ALL}` united with the union of the configured sub-categories,
but duplicated values are kept, not collapsed. -/
theorem C5_subfolders_spec (fd : List (String × List String)) (sel : List String) :
    (sel = [] → get_selected_subfolders fd sel = ["ALL"]) ∧
    (∀ x, x ∈ get_selected_subfolders fd sel ↔
        x = "ALL" ∨ ∃ f ∈ sel, ∃ subs, fd.lookup f = some subs ∧ x ∈ subs) := by
  constructor
  · intro h; simp [get_selected_subfolders, h]
  · intro x
    by_cases h : sel = []
    · subst h
      simp [get_selected_subfolders]
    · rw [get_selected_subfolders, if_neg h]
      simp only [List.mem_cons, mem_get_selected_subfolders_go]

theorem C5_subfolders_spec_witness :
    get_selected_subfolders [("A", ["2023"])] [] = ["ALL"] ∧
    ("2023" ∈ get_selected_subfolders [("A", ["2023"])] ["A"] ↔
      "2023" = "ALL" ∨
        ∃ f ∈ ["A"], ∃ subs, [("A", ["2023"])].lookup f = some subs ∧ "2023" ∈ subs) :=
  ⟨(C5_subfolders_spec [("A", ["2023"])] []).1 rfl,
   (C5_subfolders_spec [("A", ["2023"])] ["A"]).2 "2023"⟩

/-! ## Claim C8 -/

/-- C8 (counterexample): a probe retriever that records the query text it is
given shows retrieval being invoked with the raw question; the normalization
of that question (spec-modelled Normalizer) differs from it, so indexing and
query encoding do not see identically normalized text. -/
theorem C8_query_not_normalized :
    filtered_retriever (fun q _ => [{ page_content := q, metadata := exMeta }])
        ["A"] [] "سلام  دنیا" =
      [{ page_content := "سلام  دنیا", metadata := exMeta }] ∧
    preprocess_text_spec "سلام  دنیا" = "سلام دنیا" ∧
    ("سلام  دنیا" : String) ≠ preprocess_text_spec "سلام  دنیا" :=
  ⟨rfl, by decide, by decide⟩

/-- C8 (amended): the chain hands the raw, unnormalized main question to the
retrieval collaborator and interpolates the same raw question into the
generation prompt; normalization (which is not the identity) is applied only
at indexing time inside `split_documents`. -/
theorem C8_raw_query_reaches_retrieval :
    (∀ (vs : String → FilterDict → List RDoc) (llm : String → String)
        (cats subs : List String) (q note : String),
        chain_invoke vs llm cats subs q note =
          llm (build_prompt (format_context (vs q (build_filter_dict cats subs)))
                q note)) ∧
    preprocess_text_spec "سلام  دنیا" ≠ "سلام  دنیا" :=
  ⟨fun _ _ _ _ _ _ => rfl, by decide⟩

/-! ## Claim C9 -/

/-- C9 (counterexample): two runs of the chain whose retrieved chunks carry
different distinct file-name sets produce the very same result (a constant
generation collaborator), so the result cannot contain the set of distinct
file names of the retrieved chunks. -/
theorem C9_no_structural_citations :
    chain_invoke (fun _ _ => probe_docs1) (fun _ => "پاسخ") [] [] "پرسش" "" =
      chain_invoke (fun _ _ => probe_docs2) (fun _ => "پاسخ") [] [] "پرسش" "" ∧
    citedFileNames_spec (filtered_retriever (fun _ _ => probe_docs1) [] [] "پرسش") ≠
      citedFileNames_spec (filtered_retriever (fun _ _ => probe_docs2) [] [] "پرسش") :=
  ⟨rfl, by decide⟩

/-- C9 (amended): the orchestrator's result is exactly the generated text
(the generation collaborator's output on the assembled prompt) and nothing
else; the set of distinct fileName values of the retrieved chunks is not a
structural component of the result — no extraction function can recover it
from the result, since runs with different file-name sets can yield
identical results. -/
theorem C9_result_is_generated_text_only :
    (∀ (vs : String → FilterDict → List RDoc) (llm : String → String)
        (cats subs : List String) (q note : String),
        chain_invoke vs llm cats subs q note =
          llm (build_prompt
                (format_context (filtered_retriever vs cats subs q)) q note)) ∧
    ¬ ∃ extract : String → List String,
        ∀ (vs : String → FilterDict → List RDoc) (q : String),
          extract (chain_invoke vs (fun _ => "پاسخ") [] [] q "") =
            citedFileNames_spec (filtered_retriever vs [] [] q) := by
  constructor
  · intro vs llm cats subs q note; rfl
  · rintro ⟨extract, hext⟩
    have h1 := hext (fun _ _ => probe_docs1) "پرسش"
    have h2 := hext (fun _ _ => probe_docs2) "پرسش"
    rw [show chain_invoke (fun _ _ => probe_docs1) (fun _ => "پاسخ") [] [] "پرسش" "" =
          "پاسخ" from rfl] at h1
    rw [show chain_invoke (fun _ _ => probe_docs2) (fun _ => "پاسخ") [] [] "پرسش" "" =
          "پاسخ" from rfl] at h2
    rw [h1] at h2
    exact absurd h2 (by decide)

/-! ## Claim C1 -/

/-- C1: a 9-character document produces one chunk whose normalized content
"tiny doc !" has 10 characters — far below the 50-character minimum, so
`is_valid_doc` rejects it — yet the chunk is in the list that the upload
pipeline passes on to `embed_documents_in_pinecone`: the `is_valid_doc`
policy is defined in the source but never applied. -/
theorem C1_invalid_chunk_reaches_indexing :
    (process_uploaded_document preprocess_text_spec "tiny doc!" exMeta).map
        (fun c => (c.content, is_valid_doc { content := c.content, metadata := c.metadata })) =
      [("tiny doc !", false)] := by decide

/-! ## Claim C2 -/

theorem mem_flatten_replicate {α : Type} {x : α} {n : Nat} {l : List α}
    (h : x ∈ List.flatten (List.replicate n l)) : x ∈ l := by
  rw [List.mem_flatten] at h
  rcases h with ⟨s, hs, hx⟩
  rwa [List.eq_of_mem_replicate hs] at hx

theorem length_flatten_replicate {α : Type} (n : Nat) (l : List α) :
    (List.flatten (List.replicate n l)).length = n * l.length := by
  induction n with
  | zero => simp
  | succ n ih =>
    rw [List.replicate_succ, List.flatten_cons, List.length_append, ih, Nat.succ_mul]
    omega

theorem c2list_chars : ∀ c ∈ c2list, c = 'a' ∨ c = ',' := by
  intro c hc
  unfold c2list at hc
  simpa using mem_flatten_replicate hc

theorem c2list_no_sep : ∀ c ∈ c2list, c ≠ '\n' ∧ c ≠ ' ' := by
  intro c hc
  rcases c2list_chars c hc with rfl | rfl
  · exact ⟨by decide, by decide⟩
  · exact ⟨by decide, by decide⟩

theorem c2list_no_space : ∀ c ∈ c2list, isPySpace c = false := by
  intro c hc
  rcases c2list_chars c hc with rfl | rfl
  · rfl
  · rfl

theorem c2list_length : c2list.length = 602 := by
  unfold c2list
  rw [length_flatten_replicate]
  rfl

theorem c2_split : split_text c2text = [c2text] := by
  unfold split_text
  rw [show c2text.data = c2list from rfl]
  rw [splitTextL0_no_sep c2list c2list_no_sep]
  rw [windows.eq_def, dif_pos (by rw [c2list_length]; decide)]
  rw [toWindow_plain c2list
    (List.ne_nil_of_length_pos (by rw [c2list_length]; omega)) c2list_no_space]
  rfl

theorem c2_pipeline :
    process_uploaded_document preprocess_text_spec c2text exMeta =
      [{ id := 1, content := preprocess_text_spec c2text, metadata := exMeta }] := by
  show split_documents_go preprocess_text_spec [{ content := c2text, metadata := exMeta }] 1 = _
  simp only [split_documents_go]
  rw [c2_split]
  simp [chunksOfDoc]

theorem tokenizeGo_ac :
    ∀ n : Nat, tokenizeGo (List.flatten (List.replicate n ['a', ','])) [] =
      List.flatten (List.replicate n [['a'], [',']]) := by
  intro n
  induction n with
  | zero => rfl
  | succ n ih =>
    rw [List.replicate_succ, List.flatten_cons, List.replicate_succ, List.flatten_cons]
    simp only [List.cons_append, List.nil_append]
    rw [tokenizeGo, if_neg (by decide), if_neg (by decide)]
    rw [tokenizeGo, if_neg (by decide), if_pos (by decide), if_neg (by simp)]
    rw [ih]
    rfl

theorem intercalate_go_length (as : List String) :
    ∀ acc : String, (String.intercalate.go acc " " as).length =
      acc.length + (as.map (fun t => 1 + t.length)).sum := by
  induction as with
  | nil => intro acc; simp [String.intercalate.go]
  | cons a as2 ih =>
    intro acc
    rw [String.intercalate.go, ih (acc ++ " " ++ a)]
    have hsp : (" " : String).length = 1 := rfl
    simp only [String.length_append, hsp, List.map_cons, List.sum_cons]
    omega

theorem intercalate_space_length (ts : List String) :
    (String.intercalate " " ts).length = (ts.map String.length).sum + (ts.length - 1) := by
  cases ts with
  | nil => rfl
  | cons a as =>
    rw [String.intercalate, intercalate_go_length as a]
    have hsum : (as.map (fun t => 1 + t.length)).sum =
        as.length + (as.map String.length).sum := by
      induction as with
      | nil => rfl
      | cons b bs ih =>
        simp only [List.map_cons, List.sum_cons, List.length_cons] at ih ⊢
        omega
    rw [hsum]
    simp only [List.map_cons, List.sum_cons, List.length_cons]
    omega

theorem sum_map_all_one {α : Type} (l : List α) (f : α → Nat)
    (h : ∀ x ∈ l, f x = 1) : (l.map f).sum = l.length := by
  induction l with
  | nil => rfl
  | cons a as ih =>
    simp only [List.map_cons, List.sum_cons, List.length_cons,
      h a (List.mem_cons_self a as),
      ih (fun x hx => h x (List.mem_cons_of_mem a hx))]
    omega

theorem c2_preprocess_length : (preprocess_text_spec c2text).length = 1203 := by
  unfold preprocess_text_spec word_tokenize_spec
  rw [show c2text.data = c2list from rfl]
  unfold c2list
  rw [tokenizeGo_ac 301, intercalate_space_length, List.map_map]
  rw [sum_map_all_one _ _ (by
    intro t ht
    have hm := mem_flatten_replicate ht
    simp only [List.mem_cons, List.not_mem_nil, or_false] at hm
    rcases hm with rfl | rfl <;> rfl)]
  simp only [List.length_map, length_flatten_replicate]
  rfl

/-- C2 (counterexample): a 602-character document without whitespace is kept
as a single splitter window of 602 ≤ 1200 characters, but its normalized
content (token-boundary spaces inserted by the spec-modelled Normalizer) has
1203 > `CHUNK_SIZE` characters: the chunk-size bound does not survive
normalization, because `split_documents` normalizes after splitting. -/
theorem C2_normalized_content_exceeds_bound :
    (process_uploaded_document preprocess_text_spec c2text exMeta).map
        (fun c => c.content.length) = [1203] ∧
    CHUNK_SIZE < 1203 := by
  constructor
  · rw [c2_pipeline]
    simp [c2_preprocess_length]
  · decide

/-- C2 (amended): every chunk stored by `split_documents` is the
normalization `p raw` of a splitter window `raw` of at most `CHUNK_SIZE`
characters — the 1200-character bound holds for the window text before
normalization, not for the stored normalized content. -/
theorem C2_chunk_window_le_chunkSize (p : String → String) (docs : List PyDoc)
    (ch : Chunk) (h : ch ∈ split_documents p docs) :
    ∃ raw : String, ch.content = p raw ∧ raw.length ≤ CHUNK_SIZE := by
  rcases mem_split_documents_go h with ⟨doc, _, piece, hp, he⟩
  exact ⟨piece, he, split_text_chunk_le doc.content piece hp⟩

theorem C2_chunk_window_le_chunkSize_witness :
    ((⟨1, "tiny", exMeta⟩ : Chunk) ∈
        split_documents (fun s => s) [{ content := "tiny", metadata := exMeta }]) ∧
    ∃ raw : String, ("tiny" : String) = raw ∧ raw.length ≤ CHUNK_SIZE :=
  ⟨by decide,
   C2_chunk_window_le_chunkSize (fun s => s)
     [{ content := "tiny", metadata := exMeta }] ⟨1, "tiny", exMeta⟩ (by decide)⟩

/-! ## Claim C3 -/

theorem tokenizeGo_plain :
    ∀ (t cur : List Char), (∀ c ∈ t, isPySpace c = false ∧ isPunctTok c = false) →
      tokenizeGo t cur = if cur.reverse ++ t = [] then [] else [cur.reverse ++ t] := by
  intro t
  induction t with
  | nil =>
    intro cur _
    simp only [tokenizeGo, List.append_nil]
    by_cases hc : cur = []
    · subst hc; simp
    · rw [if_neg hc, if_neg (by simp [hc])]
  | cons c rest ih =>
    intro cur h
    have hc := h c (List.mem_cons_self c rest)
    rw [tokenizeGo, if_neg (by simp [hc.1]), if_neg (by simp [hc.2])]
    rw [ih (c :: cur) (fun x hx => h x (List.mem_cons_of_mem c hx))]
    simp [List.reverse_cons, List.append_assoc]

theorem preprocess_text_spec_plain (t : List Char)
    (h : ∀ c ∈ t, isPySpace c = false ∧ isPunctTok c = false) :
    preprocess_text_spec (String.mk t) = String.mk t := by
  unfold preprocess_text_spec word_tokenize_spec
  rw [show (String.mk t).data = t from rfl]
  rw [tokenizeGo_plain t [] h]
  simp only [List.reverse_nil, List.nil_append]
  by_cases ht : t = []
  · subst ht; rfl
  · rw [if_neg ht]
    rfl

theorem c3list_chars : ∀ c ∈ c3list, c ∈ alpha23 ∨ c = 'a' := by
  intro c hc
  unfold c3list at hc
  rcases List.mem_append.1 hc with hc | hc
  · exact Or.inl (mem_flatten_replicate hc)
  · exact Or.inr (by simpa using hc)

theorem c3list_plain : ∀ c ∈ c3list, isPySpace c = false ∧ isPunctTok c = false := by
  intro c hc
  have halpha : ∀ c ∈ alpha23, isPySpace c = false ∧ isPunctTok c = false := by decide
  rcases c3list_chars c hc with h | rfl
  · exact halpha c h
  · exact ⟨rfl, rfl⟩

theorem c3list_no_sep : ∀ c ∈ c3list, c ≠ '\n' ∧ c ≠ ' ' := by
  intro c hc
  have halpha : ∀ c ∈ alpha23, c ≠ '\n' ∧ c ≠ ' ' := by decide
  rcases c3list_chars c hc with h | rfl
  · exact halpha c h
  · exact ⟨by decide, by decide⟩

theorem c3list_length : c3list.length = 2600 := by
  unfold c3list
  rw [List.length_append, length_flatten_replicate]
  rfl

theorem c3_windows :
    windows c3list = [c3list.take 1200, (c3list.drop 700).take 1200, c3list.drop 1400] := by
  have hsub1 : ∀ c ∈ c3list.take 1200, isPySpace c = false :=
    fun c hc => (c3list_plain c (List.take_subset 1200 c3list hc)).1
  have hsub2 : ∀ c ∈ (c3list.drop 700).take 1200, isPySpace c = false :=
    fun c hc =>
      (c3list_plain c (List.drop_subset 700 c3list (List.take_subset 1200 _ hc))).1
  have hsub3 : ∀ c ∈ c3list.drop 1400, isPySpace c = false :=
    fun c hc => (c3list_plain c (List.drop_subset 1400 c3list hc)).1
  have hne1 : c3list.take 1200 ≠ [] :=
    List.ne_nil_of_length_pos (by rw [List.length_take, c3list_length]; decide)
  have hne2 : (c3list.drop 700).take 1200 ≠ [] :=
    List.ne_nil_of_length_pos
      (by rw [List.length_take, List.length_drop, c3list_length]; decide)
  have hne3 : c3list.drop 1400 ≠ [] :=
    List.ne_nil_of_length_pos (by rw [List.length_drop, c3list_length]; decide)
  have hd : CHUNK_SIZE - CHUNK_OVERLAP = 700 := by decide
  have hcs : CHUNK_SIZE = 1200 := rfl
  rw [windows.eq_def, dif_neg (by rw [c3list_length]; decide), hd, hcs]
  rw [windows.eq_def,
    dif_neg (by rw [List.length_drop, c3list_length]; decide), hd, hcs]
  rw [List.drop_drop, show (700 : Nat) + 700 = 1400 from rfl]
  rw [windows.eq_def,
    dif_pos (by rw [List.length_drop, c3list_length]; decide)]
  rw [toWindow_plain _ hne1 hsub1, toWindow_plain _ hne2 hsub2, toWindow_plain _ hne3 hsub3]
  rfl

theorem c3_split :
    split_text c3text = [String.mk (c3list.take 1200),
      String.mk ((c3list.drop 700).take 1200), String.mk (c3list.drop 1400)] := by
  unfold split_text
  rw [show c3text.data = c3list from rfl]
  rw [splitTextL0_no_sep c3list c3list_no_sep, c3_windows]
  rfl

theorem c3_pipeline :
    split_documents preprocess_text_spec [{ content := c3text, metadata := exMeta }] =
      [{ id := 1, content := c3seg 0 1200, metadata := exMeta },
       { id := 2, content := c3seg 700 1900, metadata := exMeta },
       { id := 3, content := c3seg 1400 2600, metadata := exMeta }] := by
  have hp1 : preprocess_text_spec (String.mk (c3list.take 1200)) =
      String.mk (c3list.take 1200) :=
    preprocess_text_spec_plain _
      (fun c hc => c3list_plain c (List.take_subset 1200 c3list hc))
  have hp2 : preprocess_text_spec (String.mk ((c3list.drop 700).take 1200)) =
      String.mk ((c3list.drop 700).take 1200) :=
    preprocess_text_spec_plain _
      (fun c hc => c3list_plain c (List.drop_subset 700 c3list (List.take_subset 1200 _ hc)))
  have hp3 : preprocess_text_spec (String.mk (c3list.drop 1400)) =
      String.mk (c3list.drop 1400) :=
    preprocess_text_spec_plain _
      (fun c hc => c3list_plain c (List.drop_subset 1400 c3list hc))
  have hseg1 : String.mk (c3list.take 1200) = c3seg 0 1200 := by
    unfold c3seg
    rw [List.drop_zero]
  have hseg2 : String.mk ((c3list.drop 700).take 1200) = c3seg 700 1900 := rfl
  have hseg3 : String.mk (c3list.drop 1400) = c3seg 1400 2600 := by
    unfold c3seg
    rw [List.take_of_length_le (by rw [List.length_drop, c3list_length])]
  show split_documents_go preprocess_text_spec
    [{ content := c3text, metadata := exMeta }] 1 = _
  simp only [split_documents_go]
  rw [c3_split]
  simp only [chunksOfDoc, List.append_nil]
  rw [hp1, hp2, hp3, hseg1, hseg2, hseg3]

/-- C3 (counterexample): the chunk ids of the 2600-character scenario
document are not 0, 1, 2 — the chunk counter of `split_documents` starts at
1. -/
theorem C3_ids_not_zero_based :
    (split_documents preprocess_text_spec
        [{ content := c3text, metadata := exMeta }]).map (fun c => c.id) ≠ [0, 1, 2] := by
  rw [c3_pipeline]
  decide

/-- C3 (amended): a document of 2600 normalized characters yields exactly
three chunks with ids 1, 2, 3 (the counter starts at 1), whose contents are
the source windows [0,1200), [700,1900) and [1400,2600) — each 1200 ≤
`CHUNK_SIZE` characters long, and each pair of adjacent windows sharing
exactly 1200 − 700 = 500 = `CHUNK_OVERLAP` characters of source text. -/
theorem C3_scenario_windows :
    split_documents preprocess_text_spec [{ content := c3text, metadata := exMeta }] =
      [{ id := 1, content := c3seg 0 1200, metadata := exMeta },
       { id := 2, content := c3seg 700 1900, metadata := exMeta },
       { id := 3, content := c3seg 1400 2600, metadata := exMeta }] ∧
    c3text.length = 2600 ∧
    preprocess_text_spec c3text = c3text ∧
    (c3seg 0 1200).length = 1200 ∧
    (c3seg 700 1900).length = 1200 ∧
    (c3seg 1400 2600).length = 1200 ∧
    CHUNK_SIZE = 1200 ∧ CHUNK_OVERLAP = 500 ∧
    1200 - 700 = 500 ∧ 1900 - 1400 = 500 := by
  refine ⟨c3_pipeline, c3list_length, preprocess_text_spec_plain c3list c3list_plain,
    ?_, ?_, ?_, rfl, rfl, rfl, rfl⟩
  · show ((c3list.drop 0).take 1200).length = 1200
    rw [List.drop_zero, List.length_take, c3list_length]
    decide
  · show ((c3list.drop 700).take 1200).length = 1200
    rw [List.length_take, List.length_drop, c3list_length]
    decide
  · show ((c3list.drop 1400).take 1200).length = 1200
    rw [List.length_take, List.length_drop, c3list_length]
    decide

/-! ## Claim C4 -/

theorem app_step_file_some {s : AppState} (st : List String)
    (h : s.bm25_file = some st) (op : AppOp) :
    (app_step s op).1.bm25_file = some st ∧ (app_step s op).2 = [BM25Event.loadEv] := by
  obtain ⟨file, idx⟩ := s
  simp only at h
  subst h
  cases op with
  | ingest docs => exact ⟨rfl, rfl⟩
  | initQuery => exact ⟨rfl, rfl⟩

theorem countFits_append (l1 l2 : List BM25Event) :
    countFits (l1 ++ l2) = countFits l1 + countFits l2 := by
  simp [countFits, List.filter_append]

theorem app_run_no_fit :
    ∀ (ops : List AppOp) (s : AppState), s.bm25_file.isSome = true →
      countFits (app_run s ops).2 = 0 := by
  intro ops
  induction ops with
  | nil => intro s _; rfl
  | cons op rest ih =>
    intro s h
    obtain ⟨st, hst⟩ := Option.isSome_iff_exists.1 h
    obtain ⟨h1, h2⟩ := app_step_file_some st hst op
    simp only [app_run]
    rw [countFits_append, h2, ih (app_step s op).1 (by rw [h1]; rfl)]
    rfl

theorem app_step_file_none {s : AppState} (h : s.bm25_file = none) (op : AppOp) :
    ∃ st, (app_step s op).1.bm25_file = some st ∧
      (app_step s op).2 = [BM25Event.fitEv st, BM25Event.dumpEv] := by
  obtain ⟨file, idx⟩ := s
  simp only at h
  subst h
  cases op with
  | ingest docs => exact ⟨_, rfl, rfl⟩
  | initQuery => exact ⟨["placeholder text"], rfl, rfl⟩

theorem app_run_fits_le_one :
    ∀ (ops : List AppOp) (s : AppState), countFits (app_run s ops).2 ≤ 1 := by
  intro ops
  induction ops with
  | nil => intro s; exact Nat.zero_le 1
  | cons op rest ih =>
    intro s
    cases hf : s.bm25_file with
    | some st =>
      rw [app_run_no_fit (op :: rest) s (by rw [hf]; rfl)]
      exact Nat.zero_le 1
    | none =>
      obtain ⟨st, h1, h2⟩ := app_step_file_none hf op
      simp only [app_run]
      rw [countFits_append, h2,
        app_run_no_fit rest (app_step s op).1 (by rw [h1]; rfl)]
      rfl

theorem app_step_index_inv {s : AppState}
    (h : ∀ v ∈ s.index_states, s.bm25_file = some v) (op : AppOp) :
    ∀ v ∈ (app_step s op).1.index_states, (app_step s op).1.bm25_file = some v := by
  obtain ⟨file, idx⟩ := s
  cases file with
  | some st =>
    cases op with
    | ingest docs =>
      intro v hv
      simp only [app_step, embed_documents_step] at hv ⊢
      rcases List.mem_append.1 hv with hv | hv
      · exact h v hv
      · rw [List.mem_singleton.1 hv]
    | initQuery => exact h
  | none =>
    have hidx : idx = [] := by
      cases idx with
      | nil => rfl
      | cons a t => exact absurd (h a (List.mem_cons_self a t)) (by simp)
    subst hidx
    cases op with
    | ingest docs =>
      intro v hv
      simp only [app_step, embed_documents_step, List.nil_append,
        List.mem_singleton] at hv
      subst hv
      rfl
    | initQuery =>
      intro v hv
      simp [app_step, init_chatbot_step] at hv

theorem app_run_index_inv :
    ∀ (ops : List AppOp) (s : AppState),
      (∀ v ∈ s.index_states, s.bm25_file = some v) →
      ∀ v ∈ (app_run s ops).1.index_states, (app_run s ops).1.bm25_file = some v := by
  intro ops
  induction ops with
  | nil => intro s h; exact h
  | cons op rest ih =>
    intro s h
    simp only [app_run]
    exact ih (app_step s op).1 (app_step_index_inv h op)

/-- C4: when the persisted sparse-encoder state exists, both the ingestion
path (`embed_documents_in_pinecone`) and the query-initialization path
(`initialize_chatbot`) load it and never fit; a fit happens only when no
persisted state exists and its result is dumped immediately; consequently
any run performs at most one fit (none at all once a state is persisted) and
every vector batch in the index was built against the currently persisted
encoder state — Invariant I1. -/
theorem C4_fit_once_then_load :
    (∀ (s : AppState) (docs : List Chunk) (st : List String), s.bm25_file = some st →
        embed_documents_step docs s =
          ({ s with index_states := s.index_states ++ [st] }, [BM25Event.loadEv]) ∧
        init_chatbot_step s = (s, [BM25Event.loadEv])) ∧
    (∀ (s : AppState) (docs : List Chunk) (c : List String),
        BM25Event.fitEv c ∈ (embed_documents_step docs s).2 →
        s.bm25_file = none ∧
        (embed_documents_step docs s).2 = [BM25Event.fitEv c, BM25Event.dumpEv] ∧
        (embed_documents_step docs s).1.bm25_file = some c) ∧
    (∀ (s : AppState) (c : List String),
        BM25Event.fitEv c ∈ (init_chatbot_step s).2 →
        s.bm25_file = none ∧
        (init_chatbot_step s).2 = [BM25Event.fitEv c, BM25Event.dumpEv] ∧
        (init_chatbot_step s).1.bm25_file = some c) ∧
    (∀ (ops : List AppOp) (s : AppState), s.bm25_file.isSome = true →
        countFits (app_run s ops).2 = 0) ∧
    (∀ (ops : List AppOp) (s : AppState), countFits (app_run s ops).2 ≤ 1) ∧
    (∀ (ops : List AppOp) (s : AppState),
        (∀ v ∈ s.index_states, s.bm25_file = some v) →
        ∀ v ∈ (app_run s ops).1.index_states,
          (app_run s ops).1.bm25_file = some v) := by
  refine ⟨?_, ?_, ?_, app_run_no_fit, app_run_fits_le_one, app_run_index_inv⟩
  · intro s docs st h
    obtain ⟨file, idx⟩ := s
    simp only at h
    subst h
    exact ⟨rfl, rfl⟩
  · intro s docs c hmem
    obtain ⟨file, idx⟩ := s
    cases file with
    | some st => simp [embed_documents_step] at hmem
    | none =>
      simp only [embed_documents_step, List.mem_cons, List.not_mem_nil,
        or_false] at hmem
      rcases hmem with hmem | hmem
      · obtain rfl : c = docs.map (fun d => d.content) := by
          injection hmem
        exact ⟨rfl, rfl, rfl⟩
      · exact absurd hmem (by simp)
  · intro s c hmem
    obtain ⟨file, idx⟩ := s
    cases file with
    | some st => simp [init_chatbot_step] at hmem
    | none =>
      simp only [init_chatbot_step, List.mem_cons, List.not_mem_nil,
        or_false] at hmem
      rcases hmem with hmem | hmem
      · obtain rfl : c = ["placeholder text"] := by injection hmem
        exact ⟨rfl, rfl, rfl⟩
      · exact absurd hmem (by simp)

theorem C4_fit_once_then_load_witness :
    (embed_documents_step [] { bm25_file := some ["متن"], index_states := [] } =
        ({ bm25_file := some ["متن"], index_states := [["متن"]] }, [BM25Event.loadEv]) ∧
      init_chatbot_step { bm25_file := some ["متن"], index_states := [] } =
        ({ bm25_file := some ["متن"], index_states := [] }, [BM25Event.loadEv])) ∧
    countFits (app_run { bm25_file := some ["متن"], index_states := [] }
        [AppOp.initQuery, AppOp.ingest []]).2 = 0 ∧
    countFits (app_run { bm25_file := none, index_states := [] }
        [AppOp.initQuery, AppOp.initQuery]).2 ≤ 1 ∧
    ∀ v ∈ (app_run { bm25_file := none, index_states := [] }
        [AppOp.initQuery, AppOp.ingest []]).1.index_states,
      (app_run { bm25_file := none, index_states := [] }
        [AppOp.initQuery, AppOp.ingest []]).1.bm25_file = some v :=
  ⟨C4_fit_once_then_load.1 { bm25_file := some ["متن"], index_states := [] } [] ["متن"] rfl,
   C4_fit_once_then_load.2.2.2.1 [AppOp.initQuery, AppOp.ingest []]
     { bm25_file := some ["متن"], index_states := [] } rfl,
   C4_fit_once_then_load.2.2.2.2.1 [AppOp.initQuery, AppOp.initQuery]
     { bm25_file := none, index_states := [] },
   C4_fit_once_then_load.2.2.2.2.2 [AppOp.initQuery, AppOp.ingest []]
     { bm25_file := none, index_states := [] } (by simp)⟩

end PersianNewsAI
